import Mathlib

/-!
Verification of the task query and aggregation engine of the
`task-mangement-app` repository, shallowly embedded in Lean 4.

Embedding conventions:
- timestamps and due dates are milliseconds since the Unix epoch, as `Int`
  (JS `Date` values compare by this number);
- JS `undefined` / absent fields are `Option.none`;
- JS string falsiness (`""` is falsy) is modelled explicitly where the
  source branches on truthiness;
- the `Map` backing store is a `List Task` in insertion order (the order
  `Array.from(map.values())` produces), with key-preserving replacement.

Source files embedded: `backend/models/Task.js`,
`backend/services/taskService.js`, and the aggregation handlers of
`backend/routes/stats.js`.
-/

namespace TaskApp

/-- Enum values accepted by `Task.validate` for `status`. -/
def validStatuses : List String := ["todo", "in_progress", "completed"]

/-- Enum values accepted by `Task.validate` for `priority`. -/
def validPriorities : List String := ["low", "medium", "high"]

/-- A stored task record (the fields of the `Task` class). -/
structure Task where
  id : String
  title : String
  description : String
  status : String
  priority : String
  /-- A `null` due date is `none`; `some d` is the instant in ms. -/
  dueDate : Option Int
  tags : List String
  createdAt : Int
  updatedAt : Int
deriving Repr, DecidableEq

/-- Payload accepted by the `Task` constructor (`new Task(data)`).
A `none` field is absent from the payload. -/
structure TaskData where
  id : Option String := none
  title : Option String := none
  description : Option String := none
  status : Option String := none
  priority : Option String := none
  /-- Here `none` models an absent or falsy `dueDate` (the constructor stores
  `null` then); `some d` a value that parses to the instant `d`. -/
  dueDate : Option Int := none
  tags : Option (List String) := none
  /-- Here `none` models an absent `createdAt` (the constructor uses `new Date()`). -/
  createdAt : Option Int := none
deriving Repr

/-- JS `String.prototype.trim`, over the character sequence. -/
def jsTrim (s : String) : List Char :=
  ((s.toList.dropWhile Char.isWhitespace).reverse.dropWhile Char.isWhitespace).reverse

/-- JS `String.prototype.toLowerCase`, over the character sequence. -/
def lowerChars (s : String) : List Char :=
  s.toList.map Char.toLower

/-- JS `<` on strings: lexicographic comparison of the code units. -/
def lexLt : List Char → List Char → Bool
  | [], [] => false
  | [], _ :: _ => true
  | _ :: _, [] => false
  | a :: as, b :: bs => if a < b then true else if b < a then false else lexLt as bs

/-- JS `v || d` for an optional string: the empty string is falsy. -/
def strOr (v : Option String) (d : String) : String :=
  match v with
  | none => d
  | some s => if s = "" then d else s

/-- The `Task` constructor before its `validate()` call: field defaulting and
timestamp assignment.  `freshId` stands for the `uuidv4()` result, `now` for
`new Date()`. -/
def mkTask (data : TaskData) (freshId : String) (now : Int) : Task :=
  { id := strOr data.id freshId
    title := strOr data.title ""
    description := strOr data.description ""
    status := strOr data.status "todo"
    priority := strOr data.priority "medium"
    dueDate := data.dueDate
    tags := data.tags.getD []
    createdAt := data.createdAt.getD now
    updatedAt := now }

/-- The checks of `Task.validate()`, as the list of violated rules.
The due-date NaN check cannot fire here because `dueDate` is an already
parsed instant, and the tags array check cannot fire because both writers
coerce `tags` to an array first. -/
def Task.validationErrors (t : Task) : List String :=
  (if t.title = "" ∨ (jsTrim t.title).length = 0 then ["title-required"] else []) ++
  (if t.title.toList.length > 100 then ["title-too-long"] else []) ++
  (if t.description ≠ "" ∧ t.description.toList.length > 500 then ["description-too-long"] else []) ++
  (if validStatuses.contains t.status then [] else ["status-invalid"]) ++
  (if validPriorities.contains t.priority then [] else ["priority-invalid"])

/-- The call `Task.validate()` succeeds (throws nothing) iff no rule is violated. -/
def Task.isValid (t : Task) : Bool :=
  t.validationErrors.isEmpty

/-- Payload accepted by `Task.update(data)`.  A `none` field models
`undefined` (the corresponding `if` in the source is skipped). -/
structure UpdateData where
  title : Option String := none
  description : Option String := none
  status : Option String := none
  priority : Option String := none
  /-- Outer `none`: field absent.  `some none`: present but falsy, stored as
  `null`.  `some (some d)`: present, parses to instant `d`. -/
  dueDate : Option (Option Int) := none
  tags : Option (List String) := none
deriving Repr

/-- The field merge performed by `Task.update` together with its
`updatedAt = new Date()` refresh.  In the source this mutates the record
in place and only afterwards calls `validate()`. -/
def Task.applyUpdate (t : Task) (d : UpdateData) (now : Int) : Task :=
  { t with
    title := d.title.getD t.title
    description := d.description.getD t.description
    status := d.status.getD t.status
    priority := d.priority.getD t.priority
    dueDate := d.dueDate.getD t.dueDate
    tags := d.tags.getD t.tags
    updatedAt := now }

/-- The `Map.prototype.set` write on the store: replaces an existing entry with the
same id in place, otherwise appends. -/
def storePut (store : List Task) (t : Task) : List Task :=
  if store.any (fun u => u.id == t.id) then
    store.map (fun u => if u.id == t.id then t else u)
  else store ++ [t]

/-- The `TaskService.createTask` operation: construct (which validates) and insert.  The
constructor throws before `set` runs, so a validation failure leaves the
store untouched. -/
def createTask (store : List Task) (data : TaskData) (freshId : String) (now : Int) :
    List Task × Except String Task :=
  let t := mkTask data freshId now
  if t.isValid then (storePut store t, Except.ok t)
  else (store, Except.error "ValidationError")

/-- The `TaskService.updateTask` operation: look the record up, merge, re-validate.
`Task.update` mutates the stored object in place before validating, so the
store reflects the merged fields (and the refreshed `updatedAt`) even when
validation fails and the call throws. -/
def updateTask (store : List Task) (id : String) (d : UpdateData) (now : Int) :
    List Task × Except String Task :=
  match store.find? (fun t => t.id == id) with
  | none => (store, Except.error "NotFoundError")
  | some t =>
    let merged := t.applyUpdate d now
    let mutated := store.map (fun u => if u.id == id then merged else u)
    if merged.isValid then (mutated, Except.ok merged)
    else (mutated, Except.error "ValidationError")

/-- Filter and sort parameters of `TaskService.getTasks` (`filters`). -/
structure Filters where
  status : Option String := none
  priority : Option String := none
  search : Option String := none
  tags : Option (List String) := none
  sortBy : Option String := none
  sortOrder : Option String := none
deriving Repr

/-- Pagination parameters of `TaskService.getTasks` (`pagination`). -/
structure Pagination where
  page : Option Nat := none
  limit : Option Nat := none
deriving Repr

/-- JS truthiness of an optional string: `if (v)` runs its branch exactly
when the field is present and non-empty. -/
def truthy (v : Option String) : Option String :=
  match v with
  | none => none
  | some s => if s = "" then none else some s

/-- Case-insensitive substring test (`hay.toLowerCase().includes(term)`):
the lowercased haystack contains the already-lowercased term as an infix. -/
def containsSub (hay : String) (term : List Char) : Bool :=
  decide (term <:+: lowerChars hay)

/-- The `filters.search` predicate: case-insensitive substring match against
title, description, or any tag. -/
def matchesSearch (term : List Char) (t : Task) : Bool :=
  containsSub t.title term || containsSub t.description term ||
    t.tags.any (fun tag => containsSub tag term)

/-- The `filters.status` pass. -/
def filterStatus (fs : Filters) (l : List Task) : List Task :=
  match truthy fs.status with
  | some s => l.filter (fun t => t.status == s)
  | none => l

/-- The `filters.priority` pass. -/
def filterPriority (fs : Filters) (l : List Task) : List Task :=
  match truthy fs.priority with
  | some p => l.filter (fun t => t.priority == p)
  | none => l

/-- The `filters.search` pass (the source lowercases the term once). -/
def filterSearch (fs : Filters) (l : List Task) : List Task :=
  match truthy fs.search with
  | some q => l.filter (matchesSearch (lowerChars q))
  | none => l

/-- The `filters.tags` pass: active when the list is present and non-empty;
a task matches when it contains any requested tag. -/
def filterTags (fs : Filters) (l : List Task) : List Task :=
  match fs.tags with
  | some ts => if ts.isEmpty then l else
      l.filter (fun t => ts.any (fun tag => t.tags.contains tag))
  | none => l

/-- The four filter passes in source order: status, priority, search, tags. -/
def applyFilters (fs : Filters) (tasks : List Task) : List Task :=
  filterTags fs (filterSearch fs (filterPriority fs (filterStatus fs tasks)))

/-- The `priorityOrder[p] || 0` lookup: rank with 0 for unknown values. -/
def priorityRank (p : String) : Nat :=
  if p = "high" then 3 else if p = "medium" then 2 else
  if p = "low" then 1 else 0

/-- The instant `new Date(9999, 11, 31)` in ms (UTC convention, per the spec timezone
default): the sentinel used for a missing due date. -/
def dueSentinel : Int := 253402214400000

/-- The due-date sort key: `a.dueDate || new Date(9999, 11, 31)`. -/
def dueKey (t : Task) : Int := t.dueDate.getD dueSentinel

/-- The strict key comparison of the sort comparator's `switch`: the
`title` case and the `default` case both compare lowercased titles. -/
def keyLt (sortBy : String) (a b : Task) : Bool :=
  if sortBy = "title" then lexLt (lowerChars a.title) (lowerChars b.title)
  else if sortBy = "priority" then decide (priorityRank a.priority < priorityRank b.priority)
  else if sortBy = "dueDate" then decide (dueKey a < dueKey b)
  else if sortBy = "createdAt" then decide (a.createdAt < b.createdAt)
  else lexLt (lowerChars a.title) (lowerChars b.title)

/-- Whether `a` may precede `b` under the source comparator: its comparator value is
at most 0.  Ascending (any `sortOrder` other than `desc`) that is `¬ b < a`;
descending it is `¬ a < b`. -/
def sortLe (sortBy : String) (sortOrder : Option String) (a b : Task) : Bool :=
  if sortOrder = some "desc" then ! keyLt sortBy a b else ! keyLt sortBy b a

/-- The sort step: `Array.prototype.sort` is stable, and a stable sort over
the total preorder induced by the comparator is unique, so it is embedded as
a stable insertion sort with `sortLe` as the "comes no later" relation.
Sorting runs only when `filters.sortBy` is truthy. -/
def applySort (fs : Filters) (tasks : List Task) : List Task :=
  match truthy fs.sortBy with
  | some sb => List.insertionSort (fun a b => sortLe sb fs.sortOrder a b = true) tasks
  | none => tasks

/-- JS `v || d` for an optional number: 0 is falsy. -/
def natOr (v : Option Nat) (d : Nat) : Nat :=
  match v with
  | none => d
  | some n => if n = 0 then d else n

/-- The value `Math.ceil(a / b)` for naturals with `b > 0`. -/
def jsCeilDiv (a b : Nat) : Nat := (a + b - 1) / b

/-- The result of `TaskService.getTasks`: the page and its metadata. -/
structure PageResult where
  tasks : List Task
  page : Nat
  limit : Nat
  total : Nat
  totalPages : Nat
  hasNext : Bool
  hasPrev : Bool
deriving Repr, DecidableEq

/-- The `TaskService.getTasks` query: filter, sort, then slice
`[(page-1)*limit, (page-1)*limit + limit)` and report metadata. -/
def getTasks (store : List Task) (fs : Filters) (pg : Pagination) : PageResult :=
  let filtered := applyFilters fs store
  let sorted := applySort fs filtered
  let page := natOr pg.page 1
  let limit := natOr pg.limit 10
  let startIndex := (page - 1) * limit
  let endIndex := startIndex + limit
  { tasks := (sorted.drop startIndex).take limit
    page := page
    limit := limit
    total := filtered.length
    totalPages := jsCeilDiv filtered.length limit
    hasNext := decide (endIndex < filtered.length)
    hasPrev := decide (page > 1) }

/-- The predicate `Task.isOverdue()` evaluated at the instant `now`. -/
def Task.isOverdue (t : Task) (now : Int) : Bool :=
  match t.dueDate with
  | none => false
  | some d => if t.status = "completed" then false else decide (now > d)

/-- Exact-arithmetic value of `(completed / total * 100).toFixed(1)`, in
tenths of a percent: the half-up rounding of `completed * 1000 / total`,
computed as `⌊(completed * 1000 + total / 2) / total⌋` over the integers
(`(2 * completed * 1000 + total) / (2 * total)` avoids the halving). -/
def toFixed1Tenths (completed total : Nat) : Nat :=
  (completed * 1000 * 2 + total) / (2 * total)

/-- The result of `TaskService.getTaskStats`.  `completionRateTenths` holds
the completion rate in tenths of a percent: the source renders
`(completed / total * 100).toFixed(1)`, whose value is this number divided
by 10. -/
structure Stats where
  total : Nat
  statusTodo : Nat
  statusInProgress : Nat
  statusCompleted : Nat
  priorityLow : Nat
  priorityMedium : Nat
  priorityHigh : Nat
  overdue : Nat
  completionRateTenths : Nat
deriving Repr

/-- The `TaskService.getTaskStats` aggregation over the full store snapshot.  The per-task
tallies are counts per enum value (every stored record that reaches this
point carries a valid enum, as write-time validation enforces). -/
def getTaskStats (tasks : List Task) (now : Int) : Stats :=
  let completed := (tasks.filter (fun t => t.status == "completed")).length
  let total := tasks.length
  { total := total
    statusTodo := (tasks.filter (fun t => t.status == "todo")).length
    statusInProgress := (tasks.filter (fun t => t.status == "in_progress")).length
    statusCompleted := completed
    priorityLow := (tasks.filter (fun t => t.priority == "low")).length
    priorityMedium := (tasks.filter (fun t => t.priority == "medium")).length
    priorityHigh := (tasks.filter (fun t => t.priority == "high")).length
    overdue := (tasks.filter (fun t => t.isOverdue now)).length
    completionRateTenths :=
      if total > 0 then toFixed1Tenths completed total else 0 }

/-- One step of `tagCounts[tag] = (tagCounts[tag] || 0) + 1` on the
insertion-ordered object, represented as an association list. -/
def bumpTag (acc : List (String × Nat)) (tag : String) : List (String × Nat) :=
  if acc.any (fun p => p.1 == tag) then
    acc.map (fun p => if p.1 == tag then (p.1, p.2 + 1) else p)
  else acc ++ [(tag, 1)]

/-- The tag tally of the `/api/stats/tags` handler over a task sequence:
every occurrence of every tag of every task bumps that tag's count. -/
def tagCountsOf (tasks : List Task) : List (String × Nat) :=
  tasks.foldl (fun acc t => t.tags.foldl bumpTag acc) []

/-- Reading a count back from the tally object (0 for an absent key). -/
def lookupCount (acc : List (String × Nat)) (tag : String) : Nat :=
  match acc.find? (fun p => p.1 == tag) with
  | some p => p.2
  | none => 0

/-- The `/api/stats/tags` handler's input and tally: it fetches its tasks
through `taskService.getTasks()` with no filters and default pagination,
then counts tags over that page. -/
def statsTagCounts (store : List Task) : List (String × Nat) :=
  tagCountsOf (getTasks store {} {}).tasks

/-- One row of the completion-trend table.  `day` is the calendar day index
of `createdAt` (the `toISOString().split('T')[0]` date, as days since the
epoch, order-isomorphic to the date string). -/
structure DayTrend where
  day : Int
  total : Nat
  completed : Nat
deriving Repr, DecidableEq

/-- UTC calendar day index of an instant in ms (floor division). -/
def dayOf (ms : Int) : Int := Int.fdiv ms 86400000

/-- One step of the `tasksByDate` grouping of `/api/stats/completion-trend`. -/
def bumpDay (acc : List DayTrend) (day : Int) (isCompleted : Bool) : List DayTrend :=
  if acc.any (fun r => r.day == day) then
    acc.map (fun r => if r.day == day then
      { r with total := r.total + 1,
               completed := r.completed + (if isCompleted then 1 else 0) }
      else r)
  else acc ++ [⟨day, 1, if isCompleted then 1 else 0⟩]

/-- The grouping and ascending date sort of the completion-trend handler
over a task sequence (the per-row `completionRate` is derived from `total`
and `completed` and is not modelled separately). -/
def trendOf (tasks : List Task) : List DayTrend :=
  List.insertionSort (fun a b => a.day ≤ b.day)
    (tasks.foldl (fun acc t => bumpDay acc (dayOf t.createdAt) (t.status == "completed")) [])

/-- The `/api/stats/completion-trend` handler: like the tags handler it
fetches its tasks through `taskService.getTasks()` with no filters and
default pagination. -/
def statsTrend (store : List Task) : List DayTrend :=
  trendOf (getTasks store {} {}).tasks

/-! Concrete records used as inputs of the closed theorems. -/

/-- A minimal valid record in status `todo`. -/
def alphaTodo : Task := ⟨"t1", "Alpha", "", "todo", "medium", none, [], 0, 0⟩

/-- A completed record carrying the tag `a` twice. -/
def betaDone : Task := ⟨"t2", "beta", "", "completed", "high", some 100, ["a", "a"], 86400000, 0⟩

/-- A record with no due date. -/
def noDue : Task := ⟨"n", "N", "", "todo", "medium", none, [], 0, 0⟩

/-- A record due one day after the year-9999 sentinel (JS dates reach the
year 275760, so such a due date is representable). -/
def farDue : Task := ⟨"b", "B", "", "todo", "medium", some (dueSentinel + 86400000), [], 0, 0⟩

/-- A family of valid records, each created on its own day and carrying its
index as its only tag. -/
def simpleTask (i : Nat) : Task :=
  ⟨toString i, "T", "", "todo", "medium", none, [toString i], (i : Int) * 86400000, 0⟩

/-- A store of eleven records, one more than the default page size. -/
def store11 : List Task := (List.range 11).map simpleTask

/-! Membership in the filtered list implies every active filter predicate. -/

theorem mem_filterStatus {fs : Filters} {l : List Task} {t : Task}
    (h : t ∈ filterStatus fs l) :
    t ∈ l ∧ ∀ s, fs.status = some s → s ≠ "" → t.status = s := by
  cases hfs : truthy fs.status with
  | none =>
    simp only [filterStatus, hfs] at h
    refine ⟨h, fun s hs hne => ?_⟩
    rw [hs] at hfs
    simp [truthy, hne] at hfs
  | some s' =>
    simp only [filterStatus, hfs] at h
    obtain ⟨hmem, hpred⟩ := List.mem_filter.mp h
    refine ⟨hmem, fun s hs hne => ?_⟩
    rw [hs] at hfs
    simp only [truthy, if_neg hne] at hfs
    obtain rfl : s = s' := Option.some.inj hfs
    exact (beq_iff_eq ..).mp hpred

theorem mem_filterPriority {fs : Filters} {l : List Task} {t : Task}
    (h : t ∈ filterPriority fs l) :
    t ∈ l ∧ ∀ p, fs.priority = some p → p ≠ "" → t.priority = p := by
  cases hfs : truthy fs.priority with
  | none =>
    simp only [filterPriority, hfs] at h
    refine ⟨h, fun p hp hne => ?_⟩
    rw [hp] at hfs
    simp [truthy, hne] at hfs
  | some p' =>
    simp only [filterPriority, hfs] at h
    obtain ⟨hmem, hpred⟩ := List.mem_filter.mp h
    refine ⟨hmem, fun p hp hne => ?_⟩
    rw [hp] at hfs
    simp only [truthy, if_neg hne] at hfs
    obtain rfl : p = p' := Option.some.inj hfs
    exact (beq_iff_eq ..).mp hpred

theorem mem_filterSearch {fs : Filters} {l : List Task} {t : Task}
    (h : t ∈ filterSearch fs l) :
    t ∈ l ∧ ∀ q, fs.search = some q → q ≠ "" → matchesSearch (lowerChars q) t = true := by
  cases hfs : truthy fs.search with
  | none =>
    simp only [filterSearch, hfs] at h
    refine ⟨h, fun q hq hne => ?_⟩
    rw [hq] at hfs
    simp [truthy, hne] at hfs
  | some q' =>
    simp only [filterSearch, hfs] at h
    obtain ⟨hmem, hpred⟩ := List.mem_filter.mp h
    refine ⟨hmem, fun q hq hne => ?_⟩
    rw [hq] at hfs
    simp only [truthy, if_neg hne] at hfs
    obtain rfl : q = q' := Option.some.inj hfs
    exact hpred

theorem mem_filterTags {fs : Filters} {l : List Task} {t : Task}
    (h : t ∈ filterTags fs l) :
    t ∈ l ∧ ∀ ts, fs.tags = some ts → ts ≠ [] → ∃ tag ∈ ts, tag ∈ t.tags := by
  cases hfs : fs.tags with
  | none =>
    simp only [filterTags, hfs] at h
    exact ⟨h, fun ts hts _ => Option.noConfusion hts⟩
  | some ts' =>
    simp only [filterTags, hfs] at h
    by_cases hte : ts'.isEmpty
    · rw [if_pos hte] at h
      refine ⟨h, fun ts hts hne => ?_⟩
      obtain rfl : ts' = ts := Option.some.inj hts
      exact absurd (List.isEmpty_iff.mp hte) hne
    · rw [if_neg hte] at h
      obtain ⟨hmem, hpred⟩ := List.mem_filter.mp h
      refine ⟨hmem, fun ts hts _ => ?_⟩
      obtain rfl : ts' = ts := Option.some.inj hts
      obtain ⟨tag, htag, hc⟩ := List.any_eq_true.mp hpred
      exact ⟨tag, htag, List.mem_of_elem_eq_true hc⟩

theorem mem_applyFilters {fs : Filters} {store : List Task} {t : Task}
    (h : t ∈ applyFilters fs store) :
    t ∈ store ∧
      (∀ s, fs.status = some s → s ≠ "" → t.status = s) ∧
      (∀ p, fs.priority = some p → p ≠ "" → t.priority = p) ∧
      (∀ q, fs.search = some q → q ≠ "" → matchesSearch (lowerChars q) t = true) ∧
      (∀ ts, fs.tags = some ts → ts ≠ [] → ∃ tag ∈ ts, tag ∈ t.tags) := by
  obtain ⟨h, htags⟩ := mem_filterTags h
  obtain ⟨h, hsearch⟩ := mem_filterSearch h
  obtain ⟨h, hprio⟩ := mem_filterPriority h
  obtain ⟨h, hstatus⟩ := mem_filterStatus h
  exact ⟨h, hstatus, hprio, hsearch, htags⟩

/-- Membership in the sorted list is membership in its input. -/
theorem mem_applySort {fs : Filters} {l : List Task} {t : Task}
    (h : t ∈ applySort fs l) : t ∈ l := by
  unfold applySort at h
  cases hfs : truthy fs.sortBy with
  | none => rw [hfs] at h; exact h
  | some sb => rw [hfs] at h; exact (List.mem_insertionSort _).mp h

/-- Membership in the returned page is membership in the sorted sequence. -/
theorem mem_getTasks {store : List Task} {fs : Filters} {pg : Pagination} {t : Task}
    (h : t ∈ (getTasks store fs pg).tasks) :
    t ∈ applySort fs (applyFilters fs store) :=
  List.mem_of_mem_drop (List.mem_of_mem_take h)

/-- C6: Filtering is a conjunction of the active predicates: every task in
the returned page satisfies all active filters — status and priority match
exactly, the search term matches case-insensitively as a substring of the
title, the description, or some tag, and the task carries at least one of
the requested tags. -/
theorem getTasks_filters_conjunction (store : List Task) (fs : Filters)
    (pg : Pagination) (t : Task) (ht : t ∈ (getTasks store fs pg).tasks) :
    t ∈ store ∧
      (∀ s, fs.status = some s → s ≠ "" → t.status = s) ∧
      (∀ p, fs.priority = some p → p ≠ "" → t.priority = p) ∧
      (∀ q, fs.search = some q → q ≠ "" → matchesSearch (lowerChars q) t = true) ∧
      (∀ ts, fs.tags = some ts → ts ≠ [] → ∃ tag ∈ ts, tag ∈ t.tags) :=
  mem_applyFilters (mem_applySort (mem_getTasks ht))

/-- Witness for C6 at a concrete store and filter specification. -/
theorem getTasks_filters_conjunction_witness :
    alphaTodo.status = "todo" :=
  (getTasks_filters_conjunction [betaDone, alphaTodo]
      { status := some "todo" } {} alphaTodo (by decide)).2.1 "todo" rfl (by decide)

/-- Sorting does not change the number of tasks. -/
theorem length_applySort (fs : Filters) (l : List Task) :
    (applySort fs l).length = l.length := by
  unfold applySort
  cases truthy fs.sortBy with
  | none => rfl
  | some sb => exact (List.perm_insertionSort _ _).length_eq

/-- C5: Pagination is correct for every filtered-and-sorted sequence, every
page ≥ 1 and every limit in 1..100: the returned tasks are the contiguous
slice `[(page-1)*limit, page*limit)` of that sequence, `total` counts the
filtered set independently of page and limit, `totalPages` is the least
number of pages of size `limit` covering `total`, `hasNext` holds iff
`page * limit < total`, `hasPrev` holds iff `page > 1`, and a page beyond
the available range yields an empty slice rather than an error. -/
theorem getTasks_pagination_correct (store : List Task) (fs : Filters)
    (page limit : Nat) (hp : 1 ≤ page) (hl : 1 ≤ limit) (hl' : limit ≤ 100) :
    (getTasks store fs ⟨some page, some limit⟩).tasks =
        ((applySort fs (applyFilters fs store)).drop ((page - 1) * limit)).take limit ∧
    (getTasks store fs ⟨some page, some limit⟩).total = (applyFilters fs store).length ∧
    ((getTasks store fs ⟨some page, some limit⟩).total ≤
        (getTasks store fs ⟨some page, some limit⟩).totalPages * limit ∧
      ∀ m : Nat, (getTasks store fs ⟨some page, some limit⟩).total ≤ m * limit →
        (getTasks store fs ⟨some page, some limit⟩).totalPages ≤ m) ∧
    ((getTasks store fs ⟨some page, some limit⟩).hasNext = true ↔
        page * limit < (applyFilters fs store).length) ∧
    ((getTasks store fs ⟨some page, some limit⟩).hasPrev = true ↔ 1 < page) ∧
    ((applyFilters fs store).length ≤ (page - 1) * limit →
        (getTasks store fs ⟨some page, some limit⟩).tasks = []) := by
  have hp0 : page ≠ 0 := by omega
  have hl0 : limit ≠ 0 := by omega
  have hpage : natOr (some page) 1 = page := by simp [natOr, hp0]
  have hlim : natOr (some limit) 10 = limit := by simp [natOr, hl0]
  have hmul : (page - 1) * limit + limit = page * limit := by
    obtain ⟨n, rfl⟩ : ∃ n, page = n + 1 := ⟨page - 1, (Nat.succ_pred_eq_of_pos hp).symm⟩
    rw [Nat.add_sub_cancel, Nat.succ_mul]
  refine ⟨?_, ?_, ⟨?_, ?_⟩, ?_, ?_, ?_⟩
  · simp [getTasks, hpage, hlim]
  · simp [getTasks, hpage, hlim]
  · simp only [getTasks, hpage, hlim, jsCeilDiv]
    have hdm := Nat.div_add_mod ((applyFilters fs store).length + limit - 1) limit
    have hr : ((applyFilters fs store).length + limit - 1) % limit < limit :=
      Nat.mod_lt _ hl
    rw [Nat.mul_comm]
    omega
  · intro m hm
    simp only [getTasks, hpage, hlim, jsCeilDiv] at hm ⊢
    rw [Nat.div_le_iff_le_mul_add_pred hl, Nat.mul_comm limit m]
    omega
  · simp only [getTasks, hpage, hlim, decide_eq_true_eq, hmul]
  · simp only [getTasks, hpage, hlim, decide_eq_true_eq, gt_iff_lt]
  · intro h
    have hlen : (applySort fs (applyFilters fs store)).length ≤ (page - 1) * limit := by
      rw [length_applySort]; exact h
    simp only [getTasks, hpage, hlim]
    rw [List.drop_eq_nil_of_le hlen, List.take_nil]

/-- Witness for C5: page 2 of size 2 over three stored tasks. -/
theorem getTasks_pagination_correct_witness :
    (getTasks [alphaTodo, betaDone, noDue] ({} : Filters) ⟨some 2, some 2⟩).hasNext = true ↔
      2 * 2 < (applyFilters {} [alphaTodo, betaDone, noDue]).length :=
  (getTasks_pagination_correct [alphaTodo, betaDone, noDue] {} 2 2
      (by decide) (by decide) (by decide)).2.2.2.1

/-! Reading counts back from the tag tally. -/

theorem lookupCount_cons (k : String) (v : Nat) (rest : List (String × Nat))
    (tag : String) :
    lookupCount ((k, v) :: rest) tag = if k == tag then v else lookupCount rest tag := by
  cases hk : k == tag <;> simp [lookupCount, List.find?_cons, hk]

theorem lookupCount_of_not_hasKey {acc : List (String × Nat)} {tag : String}
    (h : acc.any (fun p => p.1 == tag) = false) : lookupCount acc tag = 0 := by
  induction acc with
  | nil => rfl
  | cons p rest ih =>
    obtain ⟨k, v⟩ := p
    simp only [List.any_cons, Bool.or_eq_false_iff] at h
    rw [lookupCount_cons, if_neg (by simp [h.1]), ih h.2]

theorem lookupCount_bumpMap_ne (acc : List (String × Nat)) (s tag : String)
    (hne : s ≠ tag) :
    lookupCount (acc.map (fun p => if p.1 == s then (p.1, p.2 + 1) else p)) tag
      = lookupCount acc tag := by
  induction acc with
  | nil => rfl
  | cons p rest ih =>
    obtain ⟨k, v⟩ := p
    simp only [List.map_cons]
    simp only [beq_iff_eq] at ih
    rcases eq_or_ne k s with rfl | hks
    · have hkt : (k == tag) = false := beq_eq_false_iff_ne.mpr hne
      simp [lookupCount_cons, hkt, ih]
    · have hks' : (k == s) = false := beq_eq_false_iff_ne.mpr hks
      simp [lookupCount_cons, hks', ih]

theorem lookupCount_bumpMap_self (acc : List (String × Nat)) (s : String)
    (h : acc.any (fun p => p.1 == s) = true) :
    lookupCount (acc.map (fun p => if p.1 == s then (p.1, p.2 + 1) else p)) s
      = lookupCount acc s + 1 := by
  induction acc with
  | nil => simp at h
  | cons p rest ih =>
    obtain ⟨k, v⟩ := p
    simp only [List.map_cons]
    simp only [beq_iff_eq] at ih
    rcases eq_or_ne k s with rfl | hks
    · simp [lookupCount_cons]
    · have hks' : (k == s) = false := beq_eq_false_iff_ne.mpr hks
      simp only [List.any_cons, hks', Bool.false_or] at h
      simp [lookupCount_cons, hks', ih h]

theorem lookupCount_append_one_ne (acc : List (String × Nat)) (s tag : String)
    (hne : (s == tag) = false) :
    lookupCount (acc ++ [(s, 1)]) tag = lookupCount acc tag := by
  induction acc with
  | nil => simp [lookupCount_cons, hne, lookupCount]
  | cons p rest ih =>
    obtain ⟨k, v⟩ := p
    rw [List.cons_append, lookupCount_cons, lookupCount_cons]
    cases hkt : k == tag <;> simp [ih]

theorem lookupCount_append_one_self (acc : List (String × Nat)) (tag : String)
    (h : acc.any (fun p => p.1 == tag) = false) :
    lookupCount (acc ++ [(tag, 1)]) tag = 1 := by
  induction acc with
  | nil => simp [lookupCount_cons, beq_self_eq_true]
  | cons p rest ih =>
    obtain ⟨k, v⟩ := p
    simp only [List.any_cons, Bool.or_eq_false_iff] at h
    rw [List.cons_append, lookupCount_cons, if_neg (by simp [h.1]), ih h.2]

/-- One bump of a tag raises exactly that tag's count by one. -/
theorem lookupCount_bumpTag (acc : List (String × Nat)) (s tag : String) :
    lookupCount (bumpTag acc s) tag
      = lookupCount acc tag + (if s == tag then 1 else 0) := by
  unfold bumpTag
  cases hk : acc.any (fun p => p.1 == s) with
  | true =>
    simp only [hk, if_true]
    rcases eq_or_ne s tag with rfl | hst
    · rw [lookupCount_bumpMap_self acc s hk]
      simp
    · rw [lookupCount_bumpMap_ne acc s tag hst]
      simp [beq_eq_false_iff_ne.mpr hst]
  | false =>
    simp only [hk, Bool.false_eq_true, if_false]
    cases hst : s == tag with
    | true =>
      obtain rfl : s = tag := (beq_iff_eq ..).mp hst
      rw [lookupCount_append_one_self acc s hk, lookupCount_of_not_hasKey hk]
      simp
    | false => simp [lookupCount_append_one_ne acc s tag hst, hst]

/-- Folding a task's tag list into the tally adds one per occurrence. -/
theorem lookupCount_foldl_bumpTag (tags : List String) (acc : List (String × Nat))
    (tag : String) :
    lookupCount (tags.foldl bumpTag acc) tag = lookupCount acc tag + tags.count tag := by
  induction tags generalizing acc with
  | nil => simp
  | cons s rest ih =>
    rw [List.foldl_cons, ih, lookupCount_bumpTag, List.count_cons]
    cases hst : s == tag
    · simp [hst]
    · simp [hst]
      omega

/-- Folding a task sequence into the tally adds, for each tag, the total
number of occurrences of that tag across the sequence. -/
theorem lookupCount_foldl_tasks (tasks : List Task) (acc : List (String × Nat))
    (tag : String) :
    lookupCount (tasks.foldl (fun a t => t.tags.foldl bumpTag a) acc) tag
      = lookupCount acc tag + (tasks.map (fun t => t.tags.count tag)).sum := by
  induction tasks generalizing acc with
  | nil => simp
  | cons t rest ih =>
    rw [List.foldl_cons, ih, lookupCount_foldl_bumpTag, List.map_cons, List.sum_cons]
    omega

/-- C2 counterexample: a record carrying the tag `a` twice is reported with
count 2 for `a`, although only one aggregated task carries that tag. -/
theorem tag_count_duplicate_cex :
    lookupCount (statsTagCounts [betaDone]) "a" = 2 ∧
      ((getTasks [betaDone] {} {}).tasks.filter (fun t => t.tags.contains "a")).length = 1 :=
  ⟨rfl, rfl⟩

/-- C2 (amended): the count reported for a tag equals the total number of
occurrences of that tag across the tasks the handler aggregates (a duplicate
tag entry on a single task counts once per occurrence, and the aggregated
tasks are the handler's default `getTasks()` page). -/
theorem tag_count_counts_occurrences (store : List Task) (tag : String) :
    lookupCount (statsTagCounts store) tag
      = ((getTasks store {} {}).tasks.map (fun t => t.tags.count tag)).sum := by
  unfold statsTagCounts tagCountsOf
  rw [lookupCount_foldl_tasks]
  simp [lookupCount]

/-- C1: the claim says a failed partial update leaves the stored record
unchanged; the code mutates the stored object in place before validating,
so an invalid `status` on an otherwise-valid partial update leaves the
invalid merged record — with a refreshed `updatedAt` — in the store while
the call reports a validation error. -/
theorem updateTask_invalid_status_mutates_store :
    updateTask [alphaTodo] "t1" { status := some "bogus" } 5
      = ([{ alphaTodo with status := "bogus", updatedAt := 5 }],
          Except.error "ValidationError") ∧
      alphaTodo.status = "todo" ∧ alphaTodo.updatedAt = 0 :=
  ⟨rfl, rfl, rfl⟩

/-- C3: the claim says every stored task contributes to tag frequency and to
its creation-day trend cohort; the handlers fetch their input through
`getTasks()` with default pagination (first page of 10), so in an
eleven-task store the eleventh task — which carries the tag `10` and was
created on day 10 — contributes to neither aggregate. -/
theorem aggregation_drops_eleventh_task :
    lookupCount (statsTagCounts store11) "10" = 0 ∧
      (store11.filter (fun t => t.tags.contains "10")).length = 1 ∧
      (statsTrend store11).all (fun r => r.day != 10) = true ∧
      dayOf (simpleTask 10).createdAt = 10 ∧
      store11.length = 11 :=
  ⟨rfl, rfl, rfl, rfl, rfl⟩

/-- C4 counterexample: the claim says an unrecognized `sortBy` or
`sortOrder` is rejected with a validation error; the engine instead returns
a normal page, sorting by title for `sortBy = "bogus"` and ascending for
`sortOrder = "bogus"` (both results are reordered pages, not errors). -/
theorem invalid_sort_params_not_rejected_cex :
    (getTasks [betaDone, alphaTodo] { sortBy := some "bogus" } {}).tasks
        = [alphaTodo, betaDone] ∧
      (getTasks [betaDone, alphaTodo]
          { sortBy := some "createdAt", sortOrder := some "bogus" } {}).tasks
        = [alphaTodo, betaDone] :=
  ⟨rfl, rfl⟩

/-- C4 (amended): `TaskService.getTasks` performs no sort-parameter
validation: a non-empty unrecognized `sortBy` behaves exactly like `title`
(silent default), and any `sortOrder` other than `desc` — including invalid
values — behaves exactly like ascending; no request is rejected.
(Rejection of invalid sort values happens only in the HTTP route layer,
outside the engine.) -/
theorem invalid_sort_params_silently_default :
    (∀ (store : List Task) (fs : Filters) (pg : Pagination) (s : String),
        fs.sortBy = some s → s ≠ "" →
        s ∉ (["title", "priority", "dueDate", "createdAt"] : List String) →
        getTasks store fs pg = getTasks store { fs with sortBy := some "title" } pg) ∧
    (∀ (store : List Task) (fs : Filters) (pg : Pagination),
        fs.sortOrder ≠ some "desc" →
        getTasks store fs pg = getTasks store { fs with sortOrder := none } pg) := by
  constructor
  · intro store fs pg s hsb hne hmem
    simp only [List.mem_cons, List.not_mem_nil, or_false, not_or] at hmem
    obtain ⟨h1, h2, h3, h4⟩ := hmem
    have hkey : keyLt s = keyLt "title" := by
      funext a b
      simp [keyLt, h1, h2, h3, h4]
    have hle : sortLe s fs.sortOrder = sortLe "title" fs.sortOrder := by
      funext a b
      simp [sortLe, hkey]
    have hsort : applySort fs = applySort { fs with sortBy := some "title" } := by
      funext l
      have htr : truthy fs.sortBy = some s := by rw [hsb]; simp [truthy, hne]
      simp only [applySort, htr, hle]
      rfl
    have hfil : applyFilters { fs with sortBy := some "title" } store
        = applyFilters fs store := rfl
    simp only [getTasks, hfil, ← hsort]
  · intro store fs pg hso
    have hle : ∀ sb, sortLe sb fs.sortOrder = sortLe sb none := by
      intro sb
      funext a b
      simp [sortLe, hso]
    have hsort : applySort fs = applySort { fs with sortOrder := none } := by
      funext l
      cases htr : truthy fs.sortBy with
      | none => simp only [applySort, htr]
      | some sb => simp only [applySort, htr, hle sb]
    have hfil : applyFilters { fs with sortOrder := none } store
        = applyFilters fs store := rfl
    simp only [getTasks, hfil, ← hsort]

/-- Witness for C4's amended statement: `sortBy = "bogus"` produces the very
same result as `sortBy = "title"`. -/
theorem invalid_sort_params_silently_default_witness :
    getTasks [betaDone, alphaTodo] { sortBy := some "bogus" } {}
      = getTasks [betaDone, alphaTodo] { sortBy := some "title" } {} :=
  invalid_sort_params_silently_default.1 [betaDone, alphaTodo]
    { sortBy := some "bogus" } {} "bogus" rfl (by decide) (by decide)

/-- C7 counterexample: the claim says a task with no due date sorts after
every task that has one; a task due one day after the year-9999 sentinel is
a task with a due date, yet ascending dueDate order places the no-due-date
task before it. -/
theorem dueDate_missing_before_far_future_cex :
    (getTasks [farDue, noDue] { sortBy := some "dueDate", sortOrder := some "asc" } {}).tasks
        = [noDue, farDue] ∧
      noDue.dueDate = none ∧ farDue.dueDate = some (dueSentinel + 86400000) :=
  ⟨rfl, rfl, rfl⟩

/-- C7 (amended): in ascending dueDate order a task with no due date sorts
as if due at the `Date(9999, 11, 31)` sentinel: whenever it precedes a task
that has a due date, that date is at or after the sentinel — equivalently,
it sorts after every task due strictly before Dec 31 9999, but not after
tasks due at or beyond that instant. -/
theorem dueDate_asc_nulls_sort_at_sentinel (store : List Task) (fs : Filters)
    (pg : Pagination) (hsb : fs.sortBy = some "dueDate")
    (hso : fs.sortOrder ≠ some "desc") :
    (getTasks store fs pg).tasks.Pairwise
      (fun a b => a.dueDate = none → ∀ d, b.dueDate = some d → dueSentinel ≤ d) := by
  have key : ∀ a b : Task, sortLe "dueDate" fs.sortOrder a b = true ↔ dueKey a ≤ dueKey b := by
    intro a b
    simp [sortLe, hso, keyLt]
  have hsorted : (applySort fs (applyFilters fs store)).Pairwise
      (fun a b => sortLe "dueDate" fs.sortOrder a b = true) := by
    have htr : truthy fs.sortBy = some "dueDate" := by rw [hsb]; rfl
    simp only [applySort, htr]
    haveI htot : IsTotal Task (fun a b => sortLe "dueDate" fs.sortOrder a b = true) :=
      ⟨fun a b => by rw [key, key]; exact le_total _ _⟩
    haveI htrans : IsTrans Task (fun a b => sortLe "dueDate" fs.sortOrder a b = true) :=
      ⟨fun a b c hab hbc => by
        rw [key] at hab hbc ⊢
        exact le_trans hab hbc⟩
    exact List.sorted_insertionSort _ _
  have hsub : List.Sublist (getTasks store fs pg).tasks
      (applySort fs (applyFilters fs store)) := by
    simp only [getTasks]
    exact (List.take_sublist _ _).trans (List.drop_sublist _ _)
  refine (hsorted.sublist hsub).imp ?_
  intro a b hab hnone d hd
  have := (key a b).mp hab
  simpa [dueKey, hnone, hd] using this

/-- Witness for C7's amended statement at a concrete store. -/
theorem dueDate_asc_nulls_sort_at_sentinel_witness :
    ((getTasks [farDue, noDue] { sortBy := some "dueDate" } {}).tasks).Pairwise
      (fun a b => a.dueDate = none → ∀ d, b.dueDate = some d → dueSentinel ≤ d) :=
  dueDate_asc_nulls_sort_at_sentinel [farDue, noDue]
    { sortBy := some "dueDate" } {} rfl (by decide)

/-- The half-up rounding to tenths is within half a tenth of the exact
percentage. -/
theorem toFixed1Tenths_close (c T : Nat) (h : 0 < T) :
    |((toFixed1Tenths c T : ℚ)) / 10 - (c : ℚ) / (T : ℚ) * 100| ≤ 1 / 20 := by
  have hTQ : (0 : ℚ) < T := by exact_mod_cast h
  have hdm := Nat.div_add_mod (c * 1000 * 2 + T) (2 * T)
  have hrlt : (c * 1000 * 2 + T) % (2 * T) < 2 * T := Nat.mod_lt _ (by omega)
  have hdmQ : (2 * T : ℚ) * (toFixed1Tenths c T : ℚ)
      + (((c * 1000 * 2 + T) % (2 * T) : ℕ) : ℚ) = (c : ℚ) * 1000 * 2 + T := by
    exact_mod_cast hdm
  have hrQ : (((c * 1000 * 2 + T) % (2 * T) : ℕ) : ℚ) < 2 * T := by exact_mod_cast hrlt
  have hr0 : (0 : ℚ) ≤ (((c * 1000 * 2 + T) % (2 * T) : ℕ) : ℚ) := by positivity
  have hq : (toFixed1Tenths c T : ℚ)
      = ((c : ℚ) * 1000 * 2 + T - (((c * 1000 * 2 + T) % (2 * T) : ℕ) : ℚ)) / (2 * T) := by
    rw [eq_div_iff (by positivity : (2 : ℚ) * T ≠ 0)]
    linear_combination hdmQ
  have hdiff : ((toFixed1Tenths c T : ℚ)) / 10 - (c : ℚ) / (T : ℚ) * 100
      = ((T : ℚ) - (((c * 1000 * 2 + T) % (2 * T) : ℕ) : ℚ)) / (20 * T) := by
    rw [hq]
    field_simp
    ring
  rw [hdiff, abs_div, abs_of_pos (by positivity : (0 : ℚ) < 20 * T)]
  have habs : |(T : ℚ) - (((c * 1000 * 2 + T) % (2 * T) : ℕ) : ℚ)| ≤ T := by
    rw [abs_le]
    constructor
    · linarith
    · linarith
  calc |(T : ℚ) - (((c * 1000 * 2 + T) % (2 * T) : ℕ) : ℚ)| / (20 * T)
      ≤ (T : ℚ) / (20 * T) := by gcongr
    _ = 1 / 20 := by
        rw [mul_comm]
        rw [div_mul_eq_div_div]
        rw [div_self hTQ.ne']

/-- C8: the statistics' completion rate equals `completed / total × 100`
expressed to one decimal place — the reported tenths value is within half a
tenth of the exact percentage — and it is 0 when `total = 0`: computing
statistics of an empty collection reaches the guarded branch, never a
division. -/
theorem completionRate_one_decimal (tasks : List Task) (now : Int) :
    ((getTaskStats tasks now).total = 0 →
        (getTaskStats tasks now).completionRateTenths = 0) ∧
      (0 < (getTaskStats tasks now).total →
        |((getTaskStats tasks now).completionRateTenths : ℚ) / 10 -
            ((getTaskStats tasks now).statusCompleted : ℚ) /
              ((getTaskStats tasks now).total : ℚ) * 100| ≤ 1 / 20) := by
  constructor
  · intro h
    simp only [getTaskStats] at h ⊢
    rw [if_neg (by omega)]
  · intro h
    simp only [getTaskStats] at h ⊢
    rw [if_pos h]
    exact toFixed1Tenths_close _ _ h

/-- Witness for C8: one completed task out of three. -/
theorem completionRate_one_decimal_witness :
    |((getTaskStats [alphaTodo, betaDone, noDue] 0).completionRateTenths : ℚ) / 10 -
        ((getTaskStats [alphaTodo, betaDone, noDue] 0).statusCompleted : ℚ) /
          ((getTaskStats [alphaTodo, betaDone, noDue] 0).total : ℚ) * 100| ≤ 1 / 20 :=
  (completionRate_one_decimal [alphaTodo, betaDone, noDue] 0).2 (by decide)

/-- A create payload carrying its own future `createdAt`. -/
def futureCreated : TaskData := { title := some "A", createdAt := some 1000 }

/-- C9 counterexample: the claim says every accepted create yields
`updatedAt ≥ createdAt` even for payloads carrying their own `createdAt`;
a payload whose `createdAt` lies in the future of the creation instant is
accepted, and the stored record has `updatedAt < createdAt`. -/
theorem create_future_createdAt_cex :
    (createTask [] futureCreated "f1" 500).2
        = Except.ok (mkTask futureCreated "f1" 500) ∧
      (mkTask futureCreated "f1" 500).updatedAt
        < (mkTask futureCreated "f1" 500).createdAt :=
  ⟨rfl, by decide⟩

/-- C9 (amended): `updatedAt ≥ createdAt` holds for every create whose
payload does not carry its own `createdAt` (both timestamps are then the
creation instant) and for every update performed at an instant not before
the record's `createdAt`; a payload supplying a `createdAt` later than the
operation instant breaks the invariant. -/
theorem timestamps_ordered :
    (∀ (data : TaskData) (freshId : String) (now : Int), data.createdAt = none →
        (mkTask data freshId now).createdAt ≤ (mkTask data freshId now).updatedAt) ∧
      (∀ (t : Task) (d : UpdateData) (now : Int), t.createdAt ≤ now →
        (t.applyUpdate d now).createdAt ≤ (t.applyUpdate d now).updatedAt) := by
  constructor
  · intro data freshId now h
    simp [mkTask, h]
  · intro t d now h
    simpa [Task.applyUpdate] using h

/-- Witness for C9's amended statement. -/
theorem timestamps_ordered_witness :
    (mkTask { title := some "W" } "w9" 42).createdAt
      ≤ (mkTask { title := some "W" } "w9" 42).updatedAt :=
  timestamps_ordered.1 { title := some "W" } "w9" 42 rfl

/-- A stored record whose id is the empty string. -/
def emptyIdTask : Task := ⟨"", "X", "", "todo", "medium", none, [], 0, 0⟩

/-- C10 counterexample: the claim says a payload containing an `id` field is
stored under that id verbatim and that creating with an existing id never
grows the store; a payload with the (falsy) empty-string id gets a fresh
uuid instead, and creating it over a store that already holds a record with
id `""` grows the store from one record to two. -/
theorem create_empty_id_gets_fresh_cex :
    (mkTask { id := some "", title := some "A" } "fresh-id" 0).id = "fresh-id" ∧
      (createTask [emptyIdTask] { id := some "", title := some "A" } "fresh-id" 0).1.length
        = 2 :=
  ⟨rfl, rfl⟩

/-- C10 (amended): a payload containing a non-empty `id` is stored under
that id verbatim, and when a record with that id already exists the create
replaces it in place, leaving the store's size unchanged (an empty-string
id is falsy and is replaced by a fresh uuid). -/
theorem create_with_nonempty_id (store : List Task) (data : TaskData)
    (freshId : String) (now : Int) (i : String) (ts : List Task) (t : Task)
    (hid : data.id = some i) (hne : i ≠ "")
    (hok : createTask store data freshId now = (ts, Except.ok t)) :
    t.id = i ∧ ((∃ u ∈ store, u.id = i) → ts.length = store.length) := by
  have hmk : (mkTask data freshId now).id = i := by
    simp [mkTask, strOr, hid, hne]
  unfold createTask at hok
  by_cases hv : (mkTask data freshId now).isValid
  · rw [if_pos hv] at hok
    have h1 : storePut store (mkTask data freshId now) = ts :=
      congrArg Prod.fst hok
    have h2 : (Except.ok (mkTask data freshId now) : Except String Task)
        = Except.ok t := congrArg Prod.snd hok
    obtain rfl : mkTask data freshId now = t := by injection h2
    subst h1
    refine ⟨hmk, fun hex => ?_⟩
    obtain ⟨u, hu, hui⟩ := hex
    have hany : store.any (fun v => v.id == (mkTask data freshId now).id) = true := by
      rw [List.any_eq_true]
      refine ⟨u, hu, ?_⟩
      rw [beq_iff_eq, hui, hmk]
    unfold storePut
    rw [if_pos hany, List.length_map]
  · rw [if_neg hv] at hok
    have h2 : (Except.error "ValidationError" : Except String Task)
        = Except.ok t := congrArg Prod.snd hok
    exact absurd h2 (by simp)

/-- A record stored under the explicit id `x`. -/
def baseX : Task := ⟨"x", "Base", "", "todo", "medium", none, [], 0, 0⟩

/-- A create payload reusing the id `x`. -/
def newXData : TaskData := { id := some "x", title := some "B" }

/-- Witness for C10's amended statement: creating over an existing id keeps
the store at one record. -/
theorem create_with_nonempty_id_witness :
    (mkTask newXData "fresh2" 7).id = "x" ∧
      ((∃ u ∈ [baseX], u.id = "x") →
        (storePut [baseX] (mkTask newXData "fresh2" 7)).length = [baseX].length) :=
  create_with_nonempty_id [baseX] newXData "fresh2" 7 "x"
    (storePut [baseX] (mkTask newXData "fresh2" 7)) (mkTask newXData "fresh2" 7)
    rfl (by decide) rfl

end TaskApp
